import Mathlib

/-!
Verification of the gtfparse driver (`gtfparse/read_gtf.py`).

The Python module is shallowly embedded below.  Pure helper functions of the
source (`fix_attribute_quotes`, `intern_frame`, `intern_str`) become Lean
functions on `String`/`List Char`.  The pandas-backed reading pipeline is
modelled as explicit data flow: the external delimited-text reader delivers
chunks of already-split 9-field rows (or a reader error), the per-column
converters configured in `parse_gtf` are applied to each row, and the result
is a columnar table, an association list from column name to cell list.
Python runtime values that can appear in cells (str, int, float NaN, None)
are the constructors of `Cell`.  Fallible Python code returns `Except`.

Two modules of the repository are imported by `read_gtf.py` but are not part
of the sources (`required_columns.py`, `attribute_parsing.py`); definitions
that stand in for them are modelled from the specification and say so in
their doc comments.
-/

/-- A Python runtime value stored in one table cell: a string, an integer,
a 32-bit float, the float NaN (produced by the reader for `na_values` hits
in the float-typed score column), or Python `None`.  The numeric value of a
parsed float is delegated to the external reader, so a parsed float keeps
its source literal. -/
inductive Cell where
  | str : String → Cell
  | int : Int → Cell
  | float32 : String → Cell
  | nan : Cell
  | pynone : Cell
deriving DecidableEq, Repr

/-- The failure values `read_gtf.py` can surface to its caller:
`valueError` for the missing-file check, `parsingError` for the
`ParsingError` wrapper around reader failures, `attributeParseError` for a
tokenizer failure inside attribute expansion, `unboundLocal` for Python's
`UnboundLocalError`, and `pyError` for an exception propagated unchanged
(user converter failures, `KeyError`). -/
inductive GtfError where
  | valueError : String → GtfError
  | parsingError : String → GtfError
  | attributeParseError : String → GtfError
  | unboundLocal : String → GtfError
  | pyError : String → GtfError
deriving DecidableEq, Repr

/-! ## The quote/punctuation normalizer (`fix_attribute_quotes`, lines 51-56)

Python's `s.replace(pat, rep)` with a two-character pattern `';' c` and the
one-character replacement `c` scans left to right, replacing non-overlapping
occurrences and never rescanning emitted text.  `replSemi c` is that scan on
the character list. -/

/-- One `str.replace` pass: every scanned occurrence of the two-character
pattern `;c` is replaced by `c`. -/
def replSemi (c : Char) : List Char → List Char
  | [] => []
  | [a] => [a]
  | a :: b :: rest =>
    if a == ';' && b == c then c :: replSemi c rest
    else a :: replSemi c (b :: rest)

/-- `fix_attribute_quotes` from the source:
`attr.replace(';\x22', '\x22').replace(";-", "-")`. -/
def fix_attribute_quotes (s : String) : String :=
  String.mk (replSemi '-' (replSemi '"' s.data))

/-- Whether characters `x` and `y` occur adjacently (in this order) in the
list. -/
def hasPair (x y : Char) : List Char → Bool
  | a :: b :: rest => (a == x && b == y) || hasPair x y (b :: rest)
  | _ => false

/-- One simultaneous left-to-right pass replacing every occurrence of the
pattern `;\x22` by `\x22` and every occurrence of `;-` by `-`.  This
definition follows the specification's words for the normalizer (section
4.1) and is compared against the source's sequential two-pass
`fix_attribute_quotes`. -/
def specReplace : List Char → List Char
  | [] => []
  | [a] => [a]
  | a :: b :: t =>
    if a == ';' && (b == '"' || b == '-') then b :: specReplace t
    else a :: specReplace (b :: t)

/-- Induction on a list with a two-element lookahead, matching the recursion
of `replSemi` and `specReplace`. -/
theorem twoStepInduction {motive : List Char → Prop}
    (h0 : motive []) (h1 : ∀ a, motive [a])
    (h2 : ∀ a b rest, motive (b :: rest) → motive rest → motive (a :: b :: rest)) :
    ∀ l, motive l
  | [] => h0
  | [a] => h1 a
  | a :: b :: rest =>
    h2 a b rest (twoStepInduction h0 h1 h2 (b :: rest)) (twoStepInduction h0 h1 h2 rest)

theorem hasPair_cons_false {x y a : Char} {l : List Char}
    (h : hasPair x y (a :: l) = false) : hasPair x y l = false := by
  cases l with
  | nil => rfl
  | cons b t =>
    have h' := h
    simp only [hasPair, Bool.or_eq_false_iff] at h'
    exact h'.2

theorem hasPair_cons2_false {x y a b : Char} {l : List Char}
    (h : hasPair x y (a :: b :: l) = false) :
    (a == x && b == y) = false ∧ hasPair x y (b :: l) = false := by
  simpa only [hasPair, Bool.or_eq_false_iff] using h

theorem replSemi_cons_ne (c a : Char) (h : (a == ';') = false) (l : List Char) :
    replSemi c (a :: l) = a :: replSemi c l := by
  cases l with
  | nil => rfl
  | cons b t => simp [replSemi, h]

theorem replSemi_semi_ne (c b : Char) (h : (b == c) = false) (t : List Char) :
    replSemi c (';' :: b :: t) = ';' :: replSemi c (b :: t) := by
  simp [replSemi, h]

theorem replSemi_semi_match (c : Char) (t : List Char) :
    replSemi c (';' :: c :: t) = c :: replSemi c t := by
  simp [replSemi]

/-- The head of a `replSemi` pass over a nonempty list is the original head,
or the replacement character when the pattern matched at the front (which
requires the original head to be a semicolon). -/
theorem replSemi_head (c b : Char) (t : List Char) :
    ∃ h' t', replSemi c (b :: t) = h' :: t' ∧
      (h' = b ∨ ((b == ';') = true ∧ h' = c)) := by
  cases t with
  | nil => exact ⟨b, [], rfl, Or.inl rfl⟩
  | cons r rs =>
    by_cases hb : (b == ';' && r == c) = true
    · refine ⟨c, replSemi c rs, ?_, Or.inr ⟨?_, rfl⟩⟩
      · simp only [replSemi, hb, if_true]
      · exact (Bool.and_eq_true_iff.mp hb).1
    · refine ⟨b, replSemi c (r :: rs), ?_, Or.inl rfl⟩
      simp only [replSemi, hb, if_false, Bool.false_eq_true]

theorem bool_eq_false {x : Bool} (h : ¬ x = true) : x = false := by
  cases x with
  | false => rfl
  | true => exact absurd rfl h

theorem char_beq_false {a b : Char} (h : ¬ a = b) : (a == b) = false := by
  exact bool_eq_false (fun hx => h (by exact beq_iff_eq.mp hx))

/-- A `replSemi c` pass is the identity on lists without the pattern `;c`. -/
theorem replSemi_of_noPair (c : Char) :
    ∀ l, hasPair ';' c l = false → replSemi c l = l := by
  refine twoStepInduction (fun _ => rfl) (fun a => fun _ => rfl) ?_
  intro a b rest ih1 _ h
  obtain ⟨hcond, htail⟩ := hasPair_cons2_false h
  simp only [replSemi, hcond, if_false, Bool.false_eq_true]
  rw [ih1 htail]

/-- A `replSemi c` pass over a string without adjacent semicolons leaves no
occurrence of the pattern `;c` behind. -/
theorem noPair_replSemi (c : Char) (hc : ¬ c = ';') :
    ∀ l, hasPair ';' ';' l = false → hasPair ';' c (replSemi c l) = false := by
  refine twoStepInduction (fun _ => rfl) (fun a => fun _ => rfl) ?_
  intro a b rest ih_bt ih_t h
  obtain ⟨hss, htail⟩ := hasPair_cons2_false h
  by_cases hm : (a == ';' && b == c) = true
  · rw [show replSemi c (a :: b :: rest) = c :: replSemi c rest by
      simp only [replSemi, hm, if_true]]
    have hX := ih_t (hasPair_cons_false htail)
    cases hXeq : replSemi c rest with
    | nil => rfl
    | cons x xs =>
      rw [hXeq] at hX
      simp only [hasPair, char_beq_false hc, Bool.false_and, Bool.false_or]
      exact hX
  · rw [show replSemi c (a :: b :: rest) = a :: replSemi c (b :: rest) by
      simp only [replSemi, hm, if_false, Bool.false_eq_true]]
    have hY := ih_bt htail
    obtain ⟨h', t', hEq, hOr⟩ := replSemi_head c b rest
    rw [hEq] at hY ⊢
    simp only [hasPair, Bool.or_eq_false_iff]
    refine ⟨?_, hY⟩
    by_cases ha : a = ';'
    · rcases hOr with hb' | ⟨hbsemi, hc'⟩
      · have hbc : ¬ b = c := fun hbc => hm (by simp [ha, hbc])
        rw [hb']
        simp [char_beq_false hbc]
      · exact absurd hss (by simp [ha, beq_iff_eq.mp hbsemi])
    · simp [char_beq_false ha]

/-- A `replSemi c` pass (for `c` other than a semicolon) never creates
adjacent semicolons. -/
theorem noSS_replSemi (c : Char) (hc : ¬ c = ';') :
    ∀ l, hasPair ';' ';' l = false → hasPair ';' ';' (replSemi c l) = false := by
  refine twoStepInduction (fun _ => rfl) (fun a => fun _ => rfl) ?_
  intro a b rest ih_bt ih_t h
  obtain ⟨hss, htail⟩ := hasPair_cons2_false h
  by_cases hm : (a == ';' && b == c) = true
  · rw [show replSemi c (a :: b :: rest) = c :: replSemi c rest by
      simp only [replSemi, hm, if_true]]
    have hX := ih_t (hasPair_cons_false htail)
    cases hXeq : replSemi c rest with
    | nil => rfl
    | cons x xs =>
      rw [hXeq] at hX
      simp only [hasPair, char_beq_false hc, Bool.false_and, Bool.false_or]
      exact hX
  · rw [show replSemi c (a :: b :: rest) = a :: replSemi c (b :: rest) by
      simp only [replSemi, hm, if_false, Bool.false_eq_true]]
    have hY := ih_bt htail
    obtain ⟨h', t', hEq, hOr⟩ := replSemi_head c b rest
    rw [hEq] at hY ⊢
    simp only [hasPair, Bool.or_eq_false_iff]
    refine ⟨?_, hY⟩
    by_cases ha : a = ';'
    · rcases hOr with hb' | ⟨hbsemi, hc'⟩
      · have hbs : ¬ b = ';' := fun hbs => by
          rw [ha, hbs] at hss
          simp at hss
        rw [hb']
        simp [char_beq_false hbs]
      · rw [hc']
        simp [char_beq_false hc]
    · simp [char_beq_false ha]

/-- A `replSemi c` pass preserves the absence of a different pattern `;d`. -/
theorem noPairD_replSemi (c d : Char) (hdc : ¬ d = c) (hc : ¬ c = ';') :
    ∀ l, hasPair ';' d l = false → hasPair ';' d (replSemi c l) = false := by
  refine twoStepInduction (fun _ => rfl) (fun a => fun _ => rfl) ?_
  intro a b rest ih_bt ih_t h
  obtain ⟨hsd, htail⟩ := hasPair_cons2_false h
  by_cases hm : (a == ';' && b == c) = true
  · rw [show replSemi c (a :: b :: rest) = c :: replSemi c rest by
      simp only [replSemi, hm, if_true]]
    have hX := ih_t (hasPair_cons_false htail)
    cases hXeq : replSemi c rest with
    | nil => rfl
    | cons x xs =>
      rw [hXeq] at hX
      simp only [hasPair, char_beq_false hc, Bool.false_and, Bool.false_or]
      exact hX
  · rw [show replSemi c (a :: b :: rest) = a :: replSemi c (b :: rest) by
      simp only [replSemi, hm, if_false, Bool.false_eq_true]]
    have hY := ih_bt htail
    obtain ⟨h', t', hEq, hOr⟩ := replSemi_head c b rest
    rw [hEq] at hY ⊢
    simp only [hasPair, Bool.or_eq_false_iff]
    refine ⟨?_, hY⟩
    by_cases ha : a = ';'
    · rcases hOr with hb' | ⟨hbsemi, hc'⟩
      · have hbd : ¬ b = d := fun hbd => by
          rw [ha, hbd] at hsd
          simp at hsd
        rw [hb']
        simp [char_beq_false hbd]
      · have hcd : ¬ h' = d := fun hcd => hdc (by rw [← hcd, hc'])
        simp [char_beq_false hcd]
    · simp [char_beq_false ha]

/-- On character lists without adjacent semicolons, the source's sequential
two-pass normalizer is idempotent. -/
theorem fixList_idempotent_of_noSS (l : List Char)
    (h : hasPair ';' ';' l = false) :
    replSemi '-' (replSemi '"' (replSemi '-' (replSemi '"' l)))
      = replSemi '-' (replSemi '"' l) := by
  have h1 : hasPair ';' '"' (replSemi '"' l) = false :=
    noPair_replSemi '"' (by decide) l h
  have h2 : hasPair ';' ';' (replSemi '"' l) = false :=
    noSS_replSemi '"' (by decide) l h
  have h3 : hasPair ';' '-' (replSemi '-' (replSemi '"' l)) = false :=
    noPair_replSemi '-' (by decide) (replSemi '"' l) h2
  have h4 : hasPair ';' '"' (replSemi '-' (replSemi '"' l)) = false :=
    noPairD_replSemi '-' '"' (by decide) (by decide) (replSemi '"' l) h1
  rw [replSemi_of_noPair '"' (replSemi '-' (replSemi '"' l)) h4,
      replSemi_of_noPair '-' (replSemi '-' (replSemi '"' l)) h3]

/-- The source's sequential two-pass replacement agrees with the
specification's simultaneous description of the normalizer on every
character list. -/
theorem fixList_eq_specReplace :
    ∀ l, replSemi '-' (replSemi '"' l) = specReplace l := by
  refine twoStepInduction rfl (fun a => rfl) ?_
  intro a b t ih_bt ih_t
  by_cases ha : a = ';'
  · by_cases hb1 : b = '"'
    · rw [ha, hb1, replSemi_semi_match '"' t,
        replSemi_cons_ne '-' '"' (by decide) (replSemi '"' t), ih_t]
      simp [specReplace]
    · by_cases hb2 : b = '-'
      · rw [ha, hb2, replSemi_semi_ne '"' '-' (by decide) t,
          replSemi_cons_ne '"' '-' (by decide) t,
          replSemi_semi_match '-' (replSemi '"' t), ih_t]
        simp [specReplace]
      · rw [ha, replSemi_semi_ne '"' b (char_beq_false hb1) t]
        obtain ⟨h', t', hEq, hOr⟩ := replSemi_head '"' b t
        have hne : ¬ h' = '-' := by
          rcases hOr with hb' | ⟨hbsemi, hq⟩
          · rw [hb']
            exact hb2
          · rw [hq]
            decide
        rw [hEq, replSemi_semi_ne '-' h' (char_beq_false hne) t', ← hEq, ih_bt]
        have hcond : (';' == ';' && (b == '"' || b == '-')) = false := by
          simp [char_beq_false hb1, char_beq_false hb2]
        simp only [specReplace, hcond, if_false, Bool.false_eq_true]
  · rw [replSemi_cons_ne '"' a (char_beq_false ha) (b :: t),
      replSemi_cons_ne '-' a (char_beq_false ha) (replSemi '"' (b :: t)), ih_bt]
    have hcond : (a == ';' && (b == '"' || b == '-')) = false := by
      simp [char_beq_false ha]
    simp only [specReplace, hcond, if_false, Bool.false_eq_true]

/-! ## Row-level value coercers (`parse_gtf`, lines 42-99)

`intern_str` and `intern_frame` are the converter closures defined inside
`parse_gtf`; `pyInt` models Python's builtin `int()` on decimal string
literals (optional surrounding whitespace, optional sign, decimal digits;
digit-grouping underscores and non-ASCII digits are not modelled). -/

def digitsValAux : Nat → List Char → Option Nat
  | acc, [] => some acc
  | acc, ch :: rest =>
    if ch.isDigit then digitsValAux (acc * 10 + (ch.toNat - '0'.toNat)) rest
    else none

def pyIntDigits (l : List Char) : Option Nat :=
  match l with
  | [] => none
  | _ :: _ => digitsValAux 0 l

def pyIntCore (l : List Char) : Except String Int :=
  match l with
  | '+' :: ds =>
    match pyIntDigits ds with
    | some n => Except.ok (Int.ofNat n)
    | none => Except.error "invalid literal for int() with base 10"
  | '-' :: ds =>
    match pyIntDigits ds with
    | some n => Except.ok (-(Int.ofNat n : Int))
    | none => Except.error "invalid literal for int() with base 10"
  | ds =>
    match pyIntDigits ds with
    | some n => Except.ok (Int.ofNat n)
    | none => Except.error "invalid literal for int() with base 10"

/-- Python's `int(s)` on a decimal string. -/
def pyInt (s : String) : Except String Int :=
  pyIntCore (((s.data.dropWhile Char.isWhitespace).reverse.dropWhile
    Char.isWhitespace).reverse)

/-- `intern_str` from the source: `intern(str(s))`.  Interning deduplicates
equal string contents into one shared instance; it is unobservable in the
value semantics (spec section 3), so on already-string cells it is the
identity. -/
def intern_str (s : String) : String := s

/-- `intern_frame` from the source (lines 45-49): a `"."` frame becomes the
integer `0`, anything else goes through Python's `int`. -/
def intern_frame (s : String) : Except String Int :=
  if s = "." then Except.ok 0 else pyInt s

/-- The reader configuration for the score column (lines 86-91): dtype
`np.float32` with `na_values="."`, and no converter.  A `"."` becomes the
float NaN; any other field is parsed as a 32-bit float by the external
reader (the numeric conversion is the delegated reader's concern, so the
parsed float keeps its literal). -/
def scoreFieldCell (s : String) : Cell :=
  if s = "." then Cell.nan else Cell.float32 s

/-! ## The fixed nine-column table -/

/-- Modelled from the spec: `REQUIRED_COLUMNS` is imported from the
repository's `required_columns` module, which is not among the sources; the
spec (sections 1 and 6) fixes the nine GTF columns and their order. -/
def REQUIRED_COLUMNS : List String :=
  ["seqname", "source", "feature", "start", "end", "score", "strand",
   "frame", "attribute"]

/-- One raw GTF line after the external reader's tab split: nine field
strings, before any converter runs. -/
structure RawRow where
  seqname : String
  source : String
  feature : String
  start : String
  end_ : String
  score : String
  strand : String
  frame : String
  attr : String
deriving DecidableEq, Repr

/-- One record after the per-column converters and dtypes of `parse_gtf`
have been applied. -/
structure GtfRow where
  seqname : String
  source : String
  feature : String
  start : Int
  end_ : Int
  score : Cell
  strand : String
  frame : Int
  attr : String
deriving DecidableEq, Repr

/-- Apply the `parse_gtf` reader configuration to one raw row: `int64`
dtype on start/end, the score rule, `intern_str` on the categorical
columns, `fix_attribute_quotes` on the attribute column and `intern_frame`
on the frame column (lines 86-99).  A converter or dtype exception
surfaces while the reader iterates. -/
def convertRawRow (r : RawRow) : Except String GtfRow :=
  match pyInt r.start with
  | Except.error e => Except.error e
  | Except.ok st =>
    match pyInt r.end_ with
    | Except.error e => Except.error e
    | Except.ok en =>
      match intern_frame r.frame with
      | Except.error e => Except.error e
      | Except.ok fr =>
        Except.ok (GtfRow.mk (intern_str r.seqname) (intern_str r.source)
          (intern_str r.feature) st en (scoreFieldCell r.score)
          (intern_str r.strand) fr (fix_attribute_quotes r.attr))

/-- A columnar table: an ordered association list from column name to the
列 of cells, index-aligned across columns. -/
abbrev Table := List (String × List Cell)

def Table.names (t : Table) : List String := t.map Prod.fst

def Table.getCol : Table → String → Option (List Cell)
  | [], _ => none
  | (n, col) :: rest, name =>
    if n = name then some col else Table.getCol rest name

def Table.delCol : Table → String → Table
  | [], _ => []
  | (n, col) :: rest, name =>
    if n = name then Table.delCol rest name
    else (n, col) :: Table.delCol rest name

/-- Column assignment `df[name] = col`: overwrite in place when the name
exists, otherwise append the new column at the end. -/
def Table.setCol (t : Table) (name : String) (col : List Cell) : Table :=
  if name ∈ Table.names t then
    t.map (fun p => if p.1 = name then (name, col) else p)
  else t ++ [(name, col)]

/-- Assemble the concatenated dataframe of `parse_gtf`: the nine fixed
columns in `REQUIRED_COLUMNS` order, one entry per record. -/
def mkTable (rows : List GtfRow) : Table :=
  [("seqname", rows.map (fun r => Cell.str r.seqname)),
   ("source", rows.map (fun r => Cell.str r.source)),
   ("feature", rows.map (fun r => Cell.str r.feature)),
   ("start", rows.map (fun r => Cell.int r.start)),
   ("end", rows.map (fun r => Cell.int r.end_)),
   ("score", rows.map (fun r => r.score)),
   ("strand", rows.map (fun r => Cell.str r.strand)),
   ("frame", rows.map (fun r => Cell.int r.frame)),
   ("attribute", rows.map (fun r => Cell.str r.attr))]

def convertRows : List RawRow → Except String (List GtfRow)
  | [] => Except.ok []
  | r :: rest =>
    match convertRawRow r with
    | Except.error e => Except.error e
    | Except.ok g =>
      match convertRows rest with
      | Except.error e => Except.error e
      | Except.ok gs => Except.ok (g :: gs)

/-- The `for df in chunk_iterator` loop of `parse_gtf` (lines 100-105):
chunks are consumed in order; the first exception the reader raises (a
failed row split, a converter error, a dtype failure) is caught and
re-raised as `ParsingError(str(e))`, and nothing is returned. -/
def gatherRows : List (Except String (List RawRow)) → Except GtfError (List GtfRow)
  | [] => Except.ok []
  | Except.error e :: _ => Except.error (GtfError.parsingError e)
  | Except.ok raws :: rest =>
    match convertRows raws with
    | Except.error e => Except.error (GtfError.parsingError e)
    | Except.ok gs =>
      match gatherRows rest with
      | Except.error er => Except.error er
      | Except.ok more => Except.ok (gs ++ more)

/-- `parse_gtf` (lines 29-109): read all chunks, wrap the first failure in
`ParsingError`, concatenate the chunk dataframes into one table. -/
def parse_gtf (chunks : List (Except String (List RawRow))) :
    Except GtfError Table :=
  match gatherRows chunks with
  | Except.error e => Except.error e
  | Except.ok rows => Except.ok (mkTable rows)

/-! ## Attribute expansion

Modelled from the spec: `expand_attribute_strings` lives in the
repository's `attribute_parsing` module, which is not among the sources.
The definitions below follow the specification: tokenizer grammar and
failure policy from section 4.2, key registry and column builder from
section 4.3, missing marker `None` from the driver docstring (lines
118-121: "using None for rows where key didn't occur"). -/

/-- Split a character list at every semicolon. -/
def splitSemi : List Char → List (List Char)
  | [] => [[]]
  | ';' :: rest => [] :: splitSemi rest
  | c :: rest =>
    match splitSemi rest with
    | [] => [[c]]
    | seg :: segs => (c :: seg) :: segs

/-- Strip surrounding whitespace. -/
def trimC (l : List Char) : List Char :=
  ((l.dropWhile Char.isWhitespace).reverse.dropWhile Char.isWhitespace).reverse

/-- Modelled from the spec (section 4.2): a double-quoted value loses its
quotes, a bare token is kept as is. -/
def stripQuotes (l : List Char) : List Char :=
  match l with
  | '"' :: rest =>
    match rest.getLast? with
    | some '"' => rest.dropLast
    | _ => '"' :: rest
  | _ => l

/-- Modelled from the spec (section 4.2): one `key value` entry between
semicolons.  Blank entries are skipped (`Except.ok none`); an entry that
cannot be split into a key and a value fails the parse naming the
fragment. -/
def parseEntry (entry : List Char) : Except String (Option (String × String)) :=
  match trimC entry with
  | [] => Except.ok none
  | e =>
    match (e.dropWhile (fun ch => ! ch.isWhitespace)).dropWhile Char.isWhitespace with
    | [] => Except.error ("unable to parse attribute entry: " ++ String.mk e)
    | v =>
      Except.ok (some (intern_str (String.mk (e.takeWhile (fun ch => ! ch.isWhitespace))),
        intern_str (String.mk (stripQuotes v))))

def tokenizeEntries : List (List Char) → Except String (List (String × String))
  | [] => Except.ok []
  | e :: rest =>
    match parseEntry e with
    | Except.error msg => Except.error msg
    | Except.ok none => tokenizeEntries rest
    | Except.ok (some kv) =>
      match tokenizeEntries rest with
      | Except.error msg => Except.error msg
      | Except.ok kvs => Except.ok (kv :: kvs)

/-- Modelled from the spec (section 4.2): tokenize one attribute string
into its ordered key/value pairs. -/
def tokenizeAttributes (s : String) : Except String (List (String × String)) :=
  tokenizeEntries (splitSemi s.data)

def tokenizeAll : List String → Except String (List (List (String × String)))
  | [] => Except.ok []
  | s :: rest =>
    match tokenizeAttributes s with
    | Except.error e => Except.error e
    | Except.ok pairs =>
      match tokenizeAll rest with
      | Except.error e => Except.error e
      | Except.ok more => Except.ok (pairs :: more)

/-- Whether a key is retained under an optional restriction set. -/
def keepKey (restrict : Option (List String)) (k : String) : Bool :=
  match restrict with
  | none => true
  | some rs => rs.contains k

/-- Register the keys of one record's pair list in first-seen order,
honouring the restriction set (spec section 4.3, step 1). -/
def addKeys (restrict : Option (List String)) (acc : List String)
    (pairs : List (String × String)) : List String :=
  pairs.foldl (fun acc2 kv =>
    if keepKey restrict kv.1 = true ∧ kv.1 ∉ acc2 then acc2 ++ [kv.1]
    else acc2) acc

/-- The key registry: union of keys across all records in first-seen
order. -/
def registerKeys (restrict : Option (List String))
    (rows : List (List (String × String))) : List String :=
  rows.foldl (addKeys restrict) []

/-- Last occurrence wins within one record (spec section 4.3, step 2). -/
def lookupLast (k : String) (pairs : List (String × String)) : Option String :=
  pairs.foldl (fun acc kv => if kv.1 = k then some kv.2 else acc) none

/-- The aligned column for one key: the parsed value where the key occurs,
the missing marker `None` elsewhere. -/
def attrColumn (rows : List (List (String × String))) (k : String) : List Cell :=
  rows.map (fun pairs =>
    match lookupLast k pairs with
    | some v => Cell.str v
    | none => Cell.pynone)

/-- Modelled from the spec (sections 4.2, 4.3 and 6):
`expand_attribute_strings(attribute_column, usecols)` turns the attribute
column into one aligned column per discovered key. -/
def expand_attribute_strings (attrs : List String)
    (usecols : Option (List String)) : Except String Table :=
  match tokenizeAll attrs with
  | Except.error e => Except.error e
  | Except.ok rows =>
    Except.ok ((registerKeys usecols rows).map
      (fun k => (k, attrColumn rows k)))

/-- The string stored in a cell (the attribute column holds only string
cells). -/
def cellStr : Cell → String
  | Cell.str s => s
  | _ => ""

/-- The attribute column of a table, as strings. -/
def attrStrings (t : Table) : List String :=
  ((Table.getCol t "attribute").getD []).map cellStr

/-- Fold pandas column assignments over a table (the `for column_name,
values in ...items(): result[column_name] = values` loop, lines 135-137). -/
def setCols (t : Table) (cols : Table) : Table :=
  cols.foldl (fun acc p => Table.setCol acc p.1 p.2) t

/-- `parse_gtf_and_expand_attributes` (lines 112-138): parse, take the
`attribute` column, delete it, and assign one column per expanded key. -/
def parse_gtf_and_expand_attributes
    (chunks : List (Except String (List RawRow)))
    (restrict_attribute_columns : Option (List String)) :
    Except GtfError Table :=
  match parse_gtf chunks with
  | Except.error e => Except.error e
  | Except.ok t =>
    match expand_attribute_strings (attrStrings t) restrict_attribute_columns with
    | Except.error e => Except.error (GtfError.attributeParseError e)
    | Except.ok cols => Except.ok (setCols (Table.delCol t "attribute") cols)

/-! ## User column converters and column restriction (`read_gtf`) -/

/-- One cell through the converter loop body (lines 195-199):
`column_type(string_value) if len(string_value) > 0 else None`.  `len` on a
non-string raises `TypeError`. -/
def convertCell (conv : String → Except String Cell) : Cell → Except String Cell
  | Cell.str s => if s.length > 0 then conv s else Except.ok Cell.pynone
  | _ => Except.error "TypeError: object has no len()"

/-- The list comprehension of lines 195-199: cells are converted left to
right and the first exception a converter raises propagates unchanged. -/
def applyConverterList (conv : String → Except String Cell) :
    List Cell → Except String (List Cell)
  | [] => Except.ok []
  | c :: rest =>
    match convertCell conv c with
    | Except.error e => Except.error e
    | Except.ok v =>
      match applyConverterList conv rest with
      | Except.error e => Except.error e
      | Except.ok vs => Except.ok (v :: vs)

/-- The `for column_name, column_type in column_converters.items()` loop
(lines 194-199).  Reading a missing column raises `KeyError`. -/
def applyConverters : List (String × (String → Except String Cell)) → Table →
    Except GtfError Table
  | [], t => Except.ok t
  | (name, conv) :: rest, t =>
    match Table.getCol t name with
    | none => Except.error (GtfError.pyError ("KeyError: " ++ name))
    | some col =>
      match applyConverterList conv col with
      | Except.error e => Except.error (GtfError.pyError e)
      | Except.ok col2 => applyConverters rest (Table.setCol t name col2)

/-- The `usecols` restriction (lines 189-192): keep the requested names
that exist, in request order. -/
def selectUsecols (t : Table) (usecols : List String) : Table :=
  (usecols.filter (fun c => decide (c ∈ Table.names t))).map
    (fun c => (c, (Table.getCol t c).getD []))

/-- A `filepath_or_buffer` argument together with what the external reader
would deliver for it: `isPath` is `isinstance(filepath_or_buffer,
string_types)`, `pathName` the path string, and `chunks` the reader's
chunk sequence for the underlying data. -/
structure Input where
  isPath : Bool
  pathName : String
  chunks : List (Except String (List RawRow))

/-- `read_gtf` (lines 141-214) over a filesystem `fs` (the set of existing
paths).  The existence check runs first; the `expand_attribute_column =
false` branch reproduces line 187 faithfully: it evaluates the local
`result_df` before any assignment, so Python raises `UnboundLocalError`.
`infer_biotype_column` is not modelled (out of scope per spec section 1,
and defaulted off). -/
def read_gtf (fs : List String) (inp : Input) (expand_attribute_column : Bool)
    (column_converters : List (String × (String → Except String Cell)))
    (usecols : Option (List String)) : Except GtfError Table :=
  if inp.isPath = true ∧ inp.pathName ∉ fs then
    Except.error (GtfError.valueError ("GTF file does not exist: " ++ inp.pathName))
  else
    match (if expand_attribute_column then
             parse_gtf_and_expand_attributes inp.chunks usecols
           else Except.error (GtfError.unboundLocal "result_df")) with
    | Except.error e => Except.error e
    | Except.ok t0 =>
      applyConverters column_converters
        (match usecols with
         | none => t0
         | some cols => selectUsecols t0 cols)

/-! ## Table and registry lemmas -/

theorem Table.names_append (t1 t2 : Table) :
    Table.names (t1 ++ t2) = Table.names t1 ++ Table.names t2 :=
  List.map_append _ _ _

theorem Table.getCol_append (t1 t2 : Table) (c : String) :
    Table.getCol (t1 ++ t2) c =
      match Table.getCol t1 c with
      | some col => some col
      | none => Table.getCol t2 c := by
  induction t1 with
  | nil => rfl
  | cons p rest ih =>
    obtain ⟨n, col⟩ := p
    by_cases h : n = c
    · simp [Table.getCol, h]
    · simp [Table.getCol, h, ih]

theorem Table.getCol_delCol (t : Table) (k c : String) (h : c ≠ k) :
    Table.getCol (Table.delCol t k) c = Table.getCol t c := by
  induction t with
  | nil => rfl
  | cons p rest ih =>
    obtain ⟨n, col⟩ := p
    by_cases hn : n = k
    · have hnc : ¬ n = c := fun hcEq => h (by rw [← hcEq]; exact hn)
      rw [Table.delCol, if_pos hn, ih, Table.getCol, if_neg hnc]
    · rw [Table.delCol, if_neg hn]
      by_cases hc : n = c
      · rw [Table.getCol, if_pos hc, Table.getCol, if_pos hc]
      · rw [Table.getCol, if_neg hc, Table.getCol, if_neg hc, ih]

theorem Table.getCol_mem_names {t : Table} {c : String} {col : List Cell}
    (h : Table.getCol t c = some col) : c ∈ Table.names t := by
  induction t with
  | nil => exact absurd h (by simp [Table.getCol])
  | cons p rest ih =>
    obtain ⟨n, col'⟩ := p
    by_cases hn : n = c
    · simp [Table.names, hn]
    · rw [Table.getCol, if_neg hn] at h
      simp [Table.names]
      right
      simpa [Table.names] using ih h

theorem Table.setCol_fresh (t : Table) (name : String) (col : List Cell)
    (h : name ∉ Table.names t) :
    Table.setCol t name col = t ++ [(name, col)] := by
  rw [Table.setCol, if_neg h]

theorem nodup_append_single {l : List String} {a : String}
    (h : l.Nodup) (ha : a ∉ l) : (l ++ [a]).Nodup := by
  rw [List.nodup_append]
  refine ⟨h, List.nodup_singleton a, ?_⟩
  intro x hx hxa
  rw [List.mem_singleton] at hxa
  exact ha (hxa ▸ hx)

theorem setCols_fresh :
    ∀ (cols : Table) (t : Table),
      (∀ p ∈ cols, p.1 ∉ Table.names t) → (cols.map Prod.fst).Nodup →
      setCols t cols = t ++ cols := by
  intro cols
  induction cols with
  | nil => intro t _ _; simp [setCols]
  | cons p rest ih =>
    intro t hfresh hnodup
    obtain ⟨k, v⟩ := p
    have hk : k ∉ Table.names t := hfresh (k, v) (List.mem_cons_self _ _)
    have hstep : setCols t ((k, v) :: rest) = setCols (t ++ [(k, v)]) rest := by
      show setCols (Table.setCol t k v) rest = setCols (t ++ [(k, v)]) rest
      rw [Table.setCol_fresh t k v hk]
    rw [hstep]
    simp only [List.map_cons, List.nodup_cons] at hnodup
    have hfresh' : ∀ q ∈ rest, q.1 ∉ Table.names (t ++ [(k, v)]) := by
      intro q hq
      rw [Table.names_append]
      simp only [List.mem_append, Table.names, List.map_cons, List.map_nil,
        List.mem_singleton, not_or]
      refine ⟨by simpa [Table.names] using hfresh q (List.mem_cons_of_mem _ hq), ?_⟩
      intro hqk
      exact hnodup.1 (hqk ▸ List.mem_map_of_mem Prod.fst hq)
    rw [ih (t ++ [(k, v)]) hfresh' hnodup.2]
    simp

theorem addKeys_nodup (restrict : Option (List String)) :
    ∀ (pairs : List (String × String)) (acc : List String),
      acc.Nodup → (addKeys restrict acc pairs).Nodup := by
  intro pairs
  induction pairs with
  | nil => intro acc h; exact h
  | cons kv rest ih =>
    intro acc h
    have hstep : addKeys restrict acc (kv :: rest)
        = addKeys restrict
            (if keepKey restrict kv.1 = true ∧ kv.1 ∉ acc then acc ++ [kv.1]
             else acc) rest := rfl
    rw [hstep]
    by_cases hcond : keepKey restrict kv.1 = true ∧ kv.1 ∉ acc
    · rw [if_pos hcond]
      exact ih _ (nodup_append_single h hcond.2)
    · rw [if_neg hcond]
      exact ih _ h

theorem registerKeys_nodup (restrict : Option (List String))
    (rows : List (List (String × String))) :
    (registerKeys restrict rows).Nodup := by
  suffices hgen : ∀ (rs : List (List (String × String))) (acc : List String),
      acc.Nodup → (rs.foldl (addKeys restrict) acc).Nodup by
    exact hgen rows [] List.nodup_nil
  intro rs
  induction rs with
  | nil => intro acc h; exact h
  | cons r rest ih =>
    intro acc h
    exact ih _ (addKeys_nodup restrict r acc h)

theorem expand_names_nodup {attrs : List String} {usecols : Option (List String)}
    {tbl : Table} (h : expand_attribute_strings attrs usecols = Except.ok tbl) :
    (tbl.map Prod.fst).Nodup := by
  rw [expand_attribute_strings] at h
  cases htok : tokenizeAll attrs with
  | error e => rw [htok] at h; exact absurd h (by simp)
  | ok rows =>
    rw [htok] at h
    simp only [Except.ok.injEq] at h
    rw [← h, List.map_map]
    have : (Prod.fst ∘ fun k => (k, attrColumn rows k)) = id := by
      funext k
      rfl
    rw [this, List.map_id]
    exact registerKeys_nodup usecols rows

theorem parse_gtf_ok {chunks : List (Except String (List RawRow))} {t : Table}
    (h : parse_gtf chunks = Except.ok t) : ∃ rows, t = mkTable rows := by
  rw [parse_gtf] at h
  cases hg : gatherRows chunks with
  | error e => rw [hg] at h; exact absurd h (by simp)
  | ok rows =>
    rw [hg] at h
    simp only [Except.ok.injEq] at h
    exact ⟨rows, h.symm⟩

theorem names_mkTable (rows : List GtfRow) :
    Table.names (mkTable rows) = REQUIRED_COLUMNS := rfl

theorem names_delCol_mkTable (rows : List GtfRow) :
    Table.names (Table.delCol (mkTable rows) "attribute")
      = ["seqname", "source", "feature", "start", "end", "score", "strand",
         "frame"] := by
  rfl

/-! ## Claims -/

/-- Claim C1: the claim says `read_gtf` with `expand_attribute_column =
False` returns the parsed table with the raw attribute column.  The code
does not: line 187 reads `result_df = parse_gtf(result_df)`, evaluating the
local `result_df` before any assignment, so every call that reaches the
non-expanding branch raises `UnboundLocalError` instead of returning a
table.  This theorem evaluates the embedded code on that branch: whenever
the existence check passes, the result is the `UnboundLocalError`, for
every source, converter set and column restriction. -/
theorem c1_noexpand_raises_unbound_local (fs : List String) (inp : Input)
    (convs : List (String × (String → Except String Cell)))
    (usecols : Option (List String))
    (h : inp.isPath = true → inp.pathName ∈ fs) :
    read_gtf fs inp false convs usecols
      = Except.error (GtfError.unboundLocal "result_df") := by
  rw [read_gtf, if_neg]
  · rfl
  · rintro ⟨hp, hn⟩
    exact hn (h hp)

/-- Witness for C1: a buffer source (not a path) with no converters and no
column restriction hits the `UnboundLocalError`. -/
theorem c1_noexpand_raises_unbound_local_witness :
    read_gtf [] (Input.mk false "" []) false [] none
      = Except.error (GtfError.unboundLocal "result_df") :=
  c1_noexpand_raises_unbound_local [] (Input.mk false "" []) [] none (by decide)

/-- Claim C2 counterexample: the normalizer is not idempotent.  On the
attribute string `;;\x22` one application yields `;\x22` and a second
application yields `\x22`, so `normalize(normalize(s)) != normalize(s)`. -/
theorem c2_counterexample :
    fix_attribute_quotes (fix_attribute_quotes ";;\"")
      ≠ fix_attribute_quotes ";;\"" := by decide

/-- Claim C2 (amended): the normalizer is idempotent on every attribute
string with no two adjacent semicolons; a string containing `;;` before a
quote or hyphen can keep changing under repeated application. -/
theorem c2_normalizer_idempotent_noSS (s : String)
    (h : hasPair ';' ';' s.data = false) :
    fix_attribute_quotes (fix_attribute_quotes s) = fix_attribute_quotes s :=
  congrArg String.mk (fixList_idempotent_of_noSS s.data h)

/-- Witness for C2 (amended) at a concrete Ensembl-style attribute
string. -/
theorem c2_normalizer_idempotent_noSS_witness :
    fix_attribute_quotes (fix_attribute_quotes "gene_name \"PRAMEF6;\";")
      = fix_attribute_quotes "gene_name \"PRAMEF6;\";" :=
  c2_normalizer_idempotent_noSS "gene_name \"PRAMEF6;\";" (by decide)

/-- Claim C5: the row-level coercers.  A `"."` frame yields the integer
`0` and any other frame input goes through Python's `int` (so `"1"` yields
`1`); a `"."` score yields the missing-float marker NaN and any other
score input is handed to the external reader's 32-bit float parse. -/
theorem c5_frame_score_coercion :
    intern_frame "." = Except.ok 0
    ∧ intern_frame "1" = Except.ok 1
    ∧ intern_frame "2" = Except.ok 2
    ∧ (∀ s, s ≠ "." → intern_frame s = pyInt s)
    ∧ scoreFieldCell "." = Cell.nan
    ∧ (∀ s, s ≠ "." → scoreFieldCell s = Cell.float32 s) := by
  refine ⟨rfl, rfl, rfl, ?_, rfl, ?_⟩
  · intro s h
    rw [intern_frame, if_neg h]
  · intro s h
    rw [scoreFieldCell, if_neg h]

/-- Witness for C5 at concrete non-`"."` inputs. -/
theorem c5_frame_score_coercion_witness :
    intern_frame "7" = pyInt "7" ∧ scoreFieldCell "1.5" = Cell.float32 "1.5" :=
  ⟨c5_frame_score_coercion.2.2.2.1 "7" (by decide),
   c5_frame_score_coercion.2.2.2.2.2 "1.5" (by decide)⟩

/-- Claim C6: when the argument is a path string that names no existing
file, `read_gtf` fails fast with the distinct missing-file `ValueError`
(lines 178-179).  The statement quantifies over the reader's chunks for
the input, so the failure is independent of any file content: no parsing
work is consulted. -/
theorem c6_missing_path_fails_fast (fs : List String) (inp : Input)
    (expand : Bool) (convs : List (String × (String → Except String Cell)))
    (usecols : Option (List String))
    (h1 : inp.isPath = true) (h2 : inp.pathName ∉ fs) :
    read_gtf fs inp expand convs usecols
      = Except.error (GtfError.valueError
          ("GTF file does not exist: " ++ inp.pathName)) := by
  rw [read_gtf, if_pos ⟨h1, h2⟩]

/-- Witness for C6 at a concrete missing path. -/
theorem c6_missing_path_fails_fast_witness :
    read_gtf ["present.gtf"] (Input.mk true "missing.gtf" []) true [] none
      = Except.error (GtfError.valueError "GTF file does not exist: missing.gtf") :=
  c6_missing_path_fails_fast ["present.gtf"] (Input.mk true "missing.gtf" [])
    true [] none rfl (by decide)

/-- Claim C7: if the external reader fails on some chunk (the fixed
9-column split failed for a line), the whole load aborts with the single
`ParsingError` carrying the underlying cause's message (lines 100-105),
and no table is produced: the result is that error whatever chunks follow
the failing one, as long as the chunks before it were read cleanly. -/
theorem c7_reader_failure_aborts (pre : List (Except String (List RawRow)))
    (okrows : List GtfRow) (e : String)
    (post : List (Except String (List RawRow)))
    (h : gatherRows pre = Except.ok okrows) :
    parse_gtf (pre ++ Except.error e :: post)
      = Except.error (GtfError.parsingError e) := by
  rw [parse_gtf]
  suffices hg : gatherRows (pre ++ Except.error e :: post)
      = Except.error (GtfError.parsingError e) by
    rw [hg]
  induction pre generalizing okrows with
  | nil => rfl
  | cons c cs ih =>
    cases c with
    | error e2 =>
      simp only [gatherRows] at h
      exact absurd h (by simp)
    | ok raws =>
      rw [List.cons_append]
      simp only [gatherRows] at h ⊢
      cases hcv : convertRows raws with
      | error e2 =>
        simp only [hcv] at h
        exact absurd h (by simp)
      | ok gs =>
        simp only [hcv] at h ⊢
        cases hcs : gatherRows cs with
        | error er =>
          simp only [hcs] at h
          exact absurd h (by simp)
        | ok more =>
          rw [ih more hcs]

/-- Witness for C7: one clean chunk followed by a failing chunk aborts the
whole parse with the reader's message wrapped in `ParsingError`. -/
theorem c7_reader_failure_aborts_witness :
    parse_gtf [Except.ok [RawRow.mk "1" "s" "gene" "1" "2" "." "+" "."
        "k \"v\";"],
      Except.error "Expected 9 fields, saw 10", Except.ok []]
      = Except.error (GtfError.parsingError "Expected 9 fields, saw 10") :=
  c7_reader_failure_aborts
    [Except.ok [RawRow.mk "1" "s" "gene" "1" "2" "." "+" "." "k \"v\";"]]
    [GtfRow.mk "1" "s" "gene" 1 2 Cell.nan "+" 0 "k \"v\";"]
    "Expected 9 fields, saw 10" [Except.ok []] rfl

/-- Claim C8: the normalizer returns its input with every occurrence of
`;\x22` replaced by `\x22` and every occurrence of `;-` replaced by `-`
(the simultaneous description `specReplace`), returns the input unchanged
when neither sequence occurs, and maps the spec's example string to its
expected normalization. -/
theorem c8_normalizer_replacement :
    (∀ s : String, fix_attribute_quotes s = String.mk (specReplace s.data))
    ∧ (∀ s : String, hasPair ';' '"' s.data = false →
        hasPair ';' '-' s.data = false → fix_attribute_quotes s = s)
    ∧ fix_attribute_quotes "gene_id \"G1\"; gene_name \"PRAMEF6;\"; exon_number 3;"
        = "gene_id \"G1\"; gene_name \"PRAMEF6\"; exon_number 3;" := by
  refine ⟨?_, ?_, by decide⟩
  · intro s
    exact congrArg String.mk (fixList_eq_specReplace s.data)
  · intro s h1 h2
    have hfix : replSemi '-' (replSemi '"' s.data) = s.data := by
      rw [replSemi_of_noPair '"' s.data h1, replSemi_of_noPair '-' s.data h2]
    exact congrArg String.mk hfix

/-- Witness for C8 at a concrete attribute string containing neither
`;\x22` nor `;-`. -/
theorem c8_normalizer_replacement_witness :
    fix_attribute_quotes "gene_id \"A\";" = "gene_id \"A\";" :=
  c8_normalizer_replacement.2.1 "gene_id \"A\";" (by decide) (by decide)

/-- A converter that fails on the cell value `"x"` with a fixed message,
used to exhibit that converter errors carry no position information. -/
def convB : String → Except String Cell :=
  fun s => if s = "x" then Except.error "boom" else Except.ok (Cell.str s)

/-- The row-identification half of claim C3: some reading of the surfaced
error recovers the index of the offending cell, whenever the cells before
it convert cleanly and the converter fails on it. -/
def converterErrorIdentifiesRow : Prop :=
  ∃ rowOf : String → Nat,
    ∀ (conv : String → Except String Cell) (pre : List Cell) (c : Cell)
      (_post : List Cell) (e : String) (okv : List Cell),
      applyConverterList conv pre = Except.ok okv →
      convertCell conv c = Except.error e →
      rowOf e = pre.length

/-- Claim C3 counterexample: the loop of lines 194-199 lets a converter's
own exception propagate unchanged, so the surfaced error cannot identify
the offending row: the same error value `"boom"` arises from a failure at
row 0 and from a failure at row 1 (`post` is irrelevant), so no reading of
the error recovers the row index. -/
theorem c3_counterexample : ¬ converterErrorIdentifiesRow := by
  rintro ⟨rowOf, h⟩
  have h0 := h convB [] (Cell.str "x") [] "boom" [] rfl rfl
  have h1 := h convB [Cell.str "a"] (Cell.str "x") [] "boom" [Cell.str "a"]
    rfl rfl
  simp only [List.length_nil, List.length_cons] at h0 h1
  omega

/-- Claim C3 (amended): for every user-supplied converter and column, the
converter is applied to a cell exactly when the stored string has non-zero
length (a missing marker is stored otherwise), and a converter failure on
a non-empty cell aborts the conversion with the converter's own error,
propagated unchanged and carrying no column or row identification. -/
theorem c3_converters_amended :
    (∀ (conv : String → Except String Cell) (s : String),
      convertCell conv (Cell.str s)
        = if s.length > 0 then conv s else Except.ok Cell.pynone)
    ∧ (∀ (conv : String → Except String Cell) (col okv : List Cell),
        applyConverterList conv col = Except.ok okv → okv.length = col.length)
    ∧ (∀ (conv : String → Except String Cell) (pre : List Cell) (s : String)
        (post : List Cell) (e : String) (okv : List Cell),
        applyConverterList conv pre = Except.ok okv →
        0 < s.length → conv s = Except.error e →
        applyConverterList conv (pre ++ Cell.str s :: post)
          = Except.error e) := by
  refine ⟨fun conv s => rfl, ?_, ?_⟩
  · intro conv col
    induction col with
    | nil =>
      intro okv h
      simp only [applyConverterList, Except.ok.injEq] at h
      rw [← h]
    | cons c rest ih =>
      intro okv h
      simp only [applyConverterList] at h
      cases h1 : convertCell conv c with
      | error e =>
        simp only [h1] at h
        exact absurd h (by simp)
      | ok v =>
        simp only [h1] at h
        cases h2 : applyConverterList conv rest with
        | error e =>
          simp only [h2] at h
          exact absurd h (by simp)
        | ok vs =>
          simp only [h2, Except.ok.injEq] at h
          rw [← h]
          simp [ih vs h2]
  · intro conv pre
    induction pre with
    | nil =>
      intro s post e okv _ hs he
      simp only [List.nil_append, applyConverterList, convertCell]
      rw [if_pos hs, he]
    | cons c cs ih =>
      intro s post e okv h hs he
      simp only [applyConverterList] at h
      rw [List.cons_append]
      simp only [applyConverterList]
      cases h1 : convertCell conv c with
      | error e2 =>
        simp only [h1] at h
        exact absurd h (by simp)
      | ok v =>
        simp only [h1] at h
        cases h2 : applyConverterList conv cs with
        | error e2 =>
          simp only [h2] at h
          exact absurd h (by simp)
        | ok vs =>
          simp only [h1]
          rw [ih s post e vs h2 hs he]

/-- Witness for C3 (amended): the converter `convB` fails on the non-empty
third cell (an empty cell before it is replaced by the missing marker, not
converted) and the conversion aborts with the converter's own message. -/
theorem c3_converters_amended_witness :
    applyConverterList convB [Cell.str "", Cell.str "a", Cell.str "x"]
      = Except.error "boom" :=
  c3_converters_amended.2.2 convB [Cell.str "", Cell.str "a"] "x" [] "boom"
    [Cell.pynone, Cell.str "a"] rfl (by decide) rfl

/-- The single-marker half of claim C4: one cell value serves both as the
missing marker the score column gets for `"."` and as the marker a user
converter stores for an empty cell. -/
def singleConsistentMissingMarker : Prop :=
  ∃ m : Cell, scoreFieldCell "." = m
    ∧ ∀ conv, convertCell conv (Cell.str "") = Except.ok m

/-- Claim C4 counterexample: there is no single consistent missing marker.
The reader stores the float NaN for a `"."` score (dtype `float32` with
`na_values="."`), while the converter loop stores Python `None` for an
empty cell; NaN and `None` are distinct values. -/
theorem c4_counterexample : ¬ singleConsistentMissingMarker := by
  rintro ⟨m, h1, h2⟩
  have h3 : (Except.ok Cell.pynone : Except String Cell) = Except.ok m :=
    h2 (fun s => Except.ok (Cell.str s))
  have hm1 : Cell.nan = m := h1
  injection h3 with hm2
  rw [← hm1] at hm2
  exact absurd hm2 (by decide)

/-- Claim C4 (amended): the optional cells use missing markers that are
each distinguishable from a legitimate empty string, but they are not one
single marker: a `"."` score becomes the float NaN while an absent
attribute key and an empty converter input become `None`; moreover the
converter loop maps a legitimate empty-string cell to `None` itself,
conflating it downstream with a missing cell. -/
theorem c4_markers_amended :
    scoreFieldCell "." = Cell.nan
    ∧ (∀ conv, convertCell conv (Cell.str "") = Except.ok Cell.pynone)
    ∧ Cell.nan ≠ Cell.pynone
    ∧ Cell.nan ≠ Cell.str ""
    ∧ Cell.pynone ≠ Cell.str ""
    ∧ expand_attribute_strings
        ["gene_id \"A\";", "gene_id \"B\"; transcript_id \"T1\";"] none
        = Except.ok [("gene_id", [Cell.str "A", Cell.str "B"]),
            ("transcript_id", [Cell.pynone, Cell.str "T1"])] :=
  ⟨rfl, fun conv => rfl, by decide, by decide, by decide, rfl⟩

/-- Claim C9 counterexample: after expansion the returned table can
contain an `attribute` column.  A record whose attribute field uses the
key name `attribute` has that key expanded into a column, which the merge
loop of lines 135-137 assigns right back into the table after the raw
column was deleted. -/
theorem c9_counterexample :
    ∃ t : Table,
      parse_gtf_and_expand_attributes
        [Except.ok [RawRow.mk "1" "src" "gene" "11" "20" "." "+" "."
          "attribute \"z\";"]] none = Except.ok t
      ∧ "attribute" ∈ Table.names t := by
  refine ⟨_, rfl, ?_⟩
  decide

/-- Claim C9 (amended): provided no discovered attribute key collides with
one of the nine fixed column names, the expanded table has no `attribute`
column, carries the other eight fixed columns over unchanged from the
fixed-column parse, and appends one column per discovered key; a colliding
key would instead overwrite (or, for the key `attribute`, re-create) a
fixed column, because the merge loop assigns columns by name. -/
theorem c9_expansion_merge_amended
    (chunks : List (Except String (List RawRow)))
    (restrict : Option (List String)) (t expanded : Table)
    (hp : parse_gtf chunks = Except.ok t)
    (he : expand_attribute_strings (attrStrings t) restrict
      = Except.ok expanded)
    (hk : ∀ k ∈ Table.names expanded, k ∉ REQUIRED_COLUMNS) :
    parse_gtf_and_expand_attributes chunks restrict
        = Except.ok (Table.delCol t "attribute" ++ expanded)
    ∧ "attribute" ∉ Table.names (Table.delCol t "attribute" ++ expanded)
    ∧ Table.names (Table.delCol t "attribute" ++ expanded)
        = ["seqname", "source", "feature", "start", "end", "score",
           "strand", "frame"] ++ Table.names expanded
    ∧ ∀ c ∈ REQUIRED_COLUMNS, c ≠ "attribute" →
        Table.getCol (Table.delCol t "attribute" ++ expanded) c
          = Table.getCol t c := by
  obtain ⟨rows, hrows⟩ := parse_gtf_ok hp
  subst hrows
  have hnodup : (expanded.map Prod.fst).Nodup := expand_names_nodup he
  have hfresh : ∀ p ∈ expanded,
      p.1 ∉ Table.names (Table.delCol (mkTable rows) "attribute") := by
    intro p hp'
    rw [names_delCol_mkTable]
    intro hmem
    have h8 : p.1 ∈ REQUIRED_COLUMNS := by
      have hsub : ∀ x ∈ (["seqname", "source", "feature", "start", "end",
          "score", "strand", "frame"] : List String),
          x ∈ REQUIRED_COLUMNS := by decide
      exact hsub p.1 hmem
    exact hk p.1 (List.mem_map_of_mem Prod.fst hp') h8
  have hset : setCols (Table.delCol (mkTable rows) "attribute") expanded
      = Table.delCol (mkTable rows) "attribute" ++ expanded :=
    setCols_fresh expanded _ hfresh hnodup
  refine ⟨?_, ?_, ?_, ?_⟩
  · simp only [parse_gtf_and_expand_attributes, hp, he]
    rw [hset]
  · rw [Table.names_append, names_delCol_mkTable]
    simp only [List.mem_append, not_or]
    refine ⟨by decide, ?_⟩
    intro hmem
    exact hk "attribute" hmem (by decide)
  · rw [Table.names_append, names_delCol_mkTable]
  · intro c hc hne
    rw [Table.getCol_append, Table.getCol_delCol (mkTable rows) "attribute" c hne]
    fin_cases hc
    · rfl
    · rfl
    · rfl
    · rfl
    · rfl
    · rfl
    · rfl
    · rfl
    · exact absurd rfl hne

/-- Witness for C9 (amended): a one-record source whose only attribute key
is `gene_id` expands to the eight fixed columns plus a fresh `gene_id`
column. -/
theorem c9_expansion_merge_amended_witness :
    parse_gtf_and_expand_attributes
        [Except.ok [RawRow.mk "1" "src" "gene" "11" "20" "." "+" "."
          "gene_id \"A\";"]] none
      = Except.ok (Table.delCol
          (mkTable [GtfRow.mk "1" "src" "gene" 11 20 Cell.nan "+" 0
            "gene_id \"A\";"]) "attribute"
          ++ [("gene_id", [Cell.str "A"])]) :=
  (c9_expansion_merge_amended
    [Except.ok [RawRow.mk "1" "src" "gene" "11" "20" "." "+" "."
      "gene_id \"A\";"]] none
    (mkTable [GtfRow.mk "1" "src" "gene" 11 20 Cell.nan "+" 0
      "gene_id \"A\";"])
    [("gene_id", [Cell.str "A"])] rfl rfl (by decide)).1

/-- Claim C10: the `usecols` restriction (lines 189-192) keeps exactly the
requested column names that exist in the assembled table, in request
order, preserving their values; requested names absent from the table are
silently dropped (the selection is total, no error is raised), and on the
expanding path with no converters `read_gtf` returns exactly this
selection of the expanded table. -/
theorem c10_usecols_restriction :
    (∀ (t : Table) (usecols : List String),
      Table.names (selectUsecols t usecols)
        = usecols.filter (fun c => decide (c ∈ Table.names t)))
    ∧ (∀ (t : Table) (usecols : List String) (c : String) (col : List Cell),
        c ∈ usecols → Table.getCol t c = some col →
        Table.getCol (selectUsecols t usecols) c = some col)
    ∧ (∀ (fs : List String) (inp : Input) (cols : List String) (t : Table),
        (inp.isPath = true → inp.pathName ∈ fs) →
        parse_gtf_and_expand_attributes inp.chunks (some cols)
          = Except.ok t →
        read_gtf fs inp true [] (some cols)
          = Except.ok (selectUsecols t cols)) := by
  refine ⟨?_, ?_, ?_⟩
  · intro t u
    rw [selectUsecols, Table.names, List.map_map]
    have hid : (Prod.fst ∘ fun c => (c, (Table.getCol t c).getD [])) = id := by
      funext c
      rfl
    rw [hid, List.map_id]
  · intro t u
    induction u with
    | nil =>
      intro c col hc _
      exact absurd hc (List.not_mem_nil c)
    | cons u0 us ih =>
      intro c col hc hcol
      by_cases hu0 : u0 ∈ Table.names t
      · rw [selectUsecols, List.filter_cons_of_pos (by simpa using hu0),
          List.map_cons]
        by_cases hcu : u0 = c
        · rw [Table.getCol, if_pos hcu, hcu, hcol]
          rfl
        · rw [Table.getCol, if_neg hcu]
          have hcus : c ∈ us := by
            rcases List.mem_cons.mp hc with hceq | hmem
            · exact absurd hceq.symm hcu
            · exact hmem
          exact ih c col hcus hcol
      · rw [selectUsecols, List.filter_cons_of_neg (by simpa using hu0)]
        have hcus : c ∈ us := by
          rcases List.mem_cons.mp hc with hceq | hmem
          · exact absurd (hceq ▸ Table.getCol_mem_names hcol) hu0
          · exact hmem
        exact ih c col hcus hcol
  · intro fs inp cols t hfs hpae
    rw [read_gtf, if_neg (fun hand => hand.2 (hfs hand.1))]
    simp only [if_true, hpae]
    rfl

/-- Witness for C10 at a concrete table: the existing requested column is
returned with its cells, the absent request `"z"` is ignored. -/
theorem c10_usecols_restriction_witness :
    Table.getCol (selectUsecols [("a", [Cell.int 1]), ("b", [Cell.pynone])]
      ["b", "z"]) "b" = some [Cell.pynone] :=
  c10_usecols_restriction.2.1 [("a", [Cell.int 1]), ("b", [Cell.pynone])]
    ["b", "z"] "b" [Cell.pynone] (by decide) rfl
